import Mathlib

/-!
# Shallow embedding of the SBI bank-statement TSV parser

This file models `src/utils/tsvParser.js` of the repository
`SBI-bank-statement-analyzer`.  Strings are modelled as Lean `String`
(processed through their `List Char` data), JavaScript numbers are modelled
exactly as rationals (`Rat`); the JavaScript string builtins used by the
source (`trim`, `split`, `toLowerCase`, `includes`, `parseFloat`, regex
replacement for the parser's fixed patterns) are modelled on their
ASCII-relevant behaviour.  All definitions are structural and executable so
that concrete runs can be checked by kernel evaluation.
-/

namespace Tsv

/-- ASCII part of the JavaScript `\s` whitespace class (space, tab, newline,
carriage return, vertical tab, form feed), used by `trim`, `\s+` and `\s`. -/
def isJsWs (c : Char) : Bool :=
  c == ' ' || c == '\t' || c == '\n' || c == '\r' || c == '\x0b' || c == '\x0c'

/-- JavaScript `String.prototype.trim` on a character list. -/
def jsTrimL (l : List Char) : List Char :=
  ((l.dropWhile isJsWs).reverse.dropWhile isJsWs).reverse

/-- JavaScript `String.prototype.trim`. -/
def jsTrim (s : String) : String :=
  String.mk (jsTrimL s.data)

/-- The two straight quote characters `"` and `'` of the unquoting
regexes. -/
def isQuoteChar (c : Char) : Bool :=
  c == '"' || c == '\x27'

/-- Remove one leading straight quote character, if present. -/
def dropLeadQuote : List Char → List Char
  | c :: rest => if isQuoteChar c then rest else c :: rest
  | [] => []

/-- Remove one trailing straight quote character, if present. -/
def dropLastQuote (l : List Char) : List Char :=
  (dropLeadQuote l.reverse).reverse

/-- One application of `.replace(/^["']|["']$/g, '')`: remove a single
leading straight quote character and a single trailing one (the trailing
match only applies to a character not consumed by the leading match). -/
def stripQuotesL (l : List Char) : List Char :=
  dropLastQuote (dropLeadQuote l)

/-- JavaScript single-character `split('\n')`: always returns at least one
(possibly empty) piece. -/
def splitNl : List Char → List (List Char)
  | [] => [[]]
  | c :: rest =>
    match splitNl rest, c == '\n' with
    | pieces, true => [] :: pieces
    | [], false => [[c]]
    | h :: t, false => (c :: h) :: t

/-- ASCII `toLowerCase` (the source only lowercases ASCII header text). -/
def toLowerL (l : List Char) : List Char :=
  l.map Char.toLower

/-- JavaScript `String.prototype.includes`: `needle` occurs as a contiguous
substring of `hay`. -/
def strIncludes (hay needle : List Char) : Bool :=
  hay.tails.any (fun t => needle.isPrefixOf t)

/-! ## `normalizeMultiLineFields` (tsvParser.js lines 103-122) -/

/-- Character scan of `normalizeMultiLineFields`: a `"` toggles the
in-quote flag and is kept; a newline inside quotes becomes a space; every
other character passes through. -/
def nmfAux (inQuote : Bool) : List Char → List Char
  | [] => []
  | c :: rest =>
    if c == '"' then c :: nmfAux (!inQuote) rest
    else if c == '\n' && inQuote then ' ' :: nmfAux inQuote rest
    else c :: nmfAux inQuote rest

/-- `normalizeMultiLineFields(content)`. -/
def normalizeMultiLineFields (content : String) : String :=
  String.mk (nmfAux false content.data)

/-! ## `parseTabSeparatedLine` (tsvParser.js lines 127-150) -/

/-- Scan of `parseTabSeparatedLine`: `current` is the accumulator of the
field under construction, `inQuote` the quote flag.  A `"` toggles the flag
and is dropped; a tab outside quotes pushes the trimmed current field; any
other character (including a tab inside quotes) is accumulated.  The final
field is always pushed, even if empty. -/
def ptslAux (inQuote : Bool) (current : List Char) : List Char → List String
  | [] => [String.mk (jsTrimL current)]
  | c :: rest =>
    if c == '"' then ptslAux (!inQuote) current rest
    else if c == '\t' && !inQuote then
      String.mk (jsTrimL current) :: ptslAux inQuote [] rest
    else ptslAux inQuote (current ++ [c]) rest

/-- `parseTabSeparatedLine(line)`. -/
def parseTabSeparatedLine (line : String) : List String :=
  ptslAux false [] line.data

/-- Number of tab characters of a line that lie outside quoted regions
(the field separators recognised by `parseTabSeparatedLine`). -/
def countUnquotedTabs (inQuote : Bool) : List Char → Nat
  | [] => 0
  | c :: rest =>
    if c == '"' then countUnquotedTabs (!inQuote) rest
    else if c == '\t' && !inQuote then countUnquotedTabs inQuote rest + 1
    else countUnquotedTabs inQuote rest

/-! ## `parseAmount` (tsvParser.js lines 287-310)

JavaScript numbers are modelled exactly as rationals; `parseFloat` is
modelled on its decimal grammar (optional sign, digits with optional
fraction, optional exponent; longest valid prefix; `NaN` when no prefix
parses, modelled as `none`).  `Infinity` literals are not modelled. -/

/-- Numeric value of a list of decimal digit characters. -/
def digitsToNat (l : List Char) : Nat :=
  l.foldl (fun n c => n * 10 + (c.toNat - '0'.toNat)) 0

/-- Mantissa of the `parseFloat` grammar, `digits [. digits?] | . digits`:
returns the digits' combined value, the number of fraction digits, and the
rest of the input (the value read is `mant / 10 ^ scale`). -/
def parseMantissa (l : List Char) : Option (Nat × Nat × List Char) :=
  let intDs := l.takeWhile Char.isDigit
  let r1 := l.dropWhile Char.isDigit
  match r1 with
  | '.' :: r2 =>
    let fracDs := r2.takeWhile Char.isDigit
    if intDs.isEmpty && fracDs.isEmpty then none
    else some (digitsToNat (intDs ++ fracDs), fracDs.length, r2.dropWhile Char.isDigit)
  | _ => if intDs.isEmpty then none else some (digitsToNat intDs, 0, r1)

/-- Value of an optional exponent part `[eE][+-]?digits` at the given
position; an incomplete exponent is not part of the longest valid prefix
and contributes the neutral exponent 0. -/
def parseExp (l : List Char) : Int :=
  match l with
  | e :: rest =>
    if e == 'e' || e == 'E' then
      match rest with
      | '-' :: r2 => -(digitsToNat (r2.takeWhile Char.isDigit) : Int)
      | '+' :: r2 => (digitsToNat (r2.takeWhile Char.isDigit) : Int)
      | _ => (digitsToNat (rest.takeWhile Char.isDigit) : Int)
    else 0
  | [] => 0

/-- The exact rational `± mant * 10 ^ exp / 10 ^ scale` denoted by a parsed
decimal literal. -/
def sciToRat (neg : Bool) (mant scale : Nat) (exp : Int) : Rat :=
  let k : Int := exp - (scale : Int)
  let m : Int := if neg then -(mant : Int) else (mant : Int)
  if 0 ≤ k then mkRat (m * ((10 ^ k.toNat : Nat) : Int)) 1
  else mkRat m (10 ^ (-k).toNat)

/-- JavaScript `parseFloat` on its decimal grammar: leading whitespace is
skipped, then an optional sign, a mantissa and an optional exponent; `none`
is `NaN`. -/
def jsParseFloat (l : List Char) : Option Rat :=
  match l.dropWhile isJsWs with
  | c :: rest =>
    if c == '-' then (parseMantissa rest).map (fun t => sciToRat true t.1 t.2.1 (parseExp t.2.2))
    else if c == '+' then
      (parseMantissa rest).map (fun t => sciToRat false t.1 t.2.1 (parseExp t.2.2))
    else (parseMantissa (c :: rest)).map (fun t => sciToRat false t.1 t.2.1 (parseExp t.2.2))
  | [] => none

/-- `parseAmount(value)` on the character list: trim; empty → 0; strip one
layer of surrounding quotes; empty → 0; drop all commas; drop `₹` and `$`
and trim; `parseFloat`; `NaN` → 0. -/
def parseAmountL (value : List Char) : Rat :=
  let cleaned := jsTrimL value
  if cleaned.isEmpty then 0
  else
    let c1 := stripQuotesL cleaned
    if c1.isEmpty then 0
    else
      let c2 := c1.filter (fun c => c != ',')
      let c3 := jsTrimL (c2.filter (fun c => c != '₹' && c != '$'))
      match jsParseFloat c3 with
      | some q => q
      | none => 0

/-- `parseAmount(value)`. -/
def parseAmount (value : String) : Rat :=
  parseAmountL value.data

/-! ## `parseDate` (tsvParser.js lines 315-382) -/

/-- Separator class `[\/\-\.]` of the numeric date patterns. -/
def isSep3 (c : Char) : Bool :=
  c == '/' || c == '-' || c == '.'

/-- Separator class `[\/\-]` of the month-abbreviation date patterns. -/
def isSep2 (c : Char) : Bool :=
  c == '/' || c == '-'

/-- JavaScript `\w` word-character class (ASCII). -/
def isWordChar (c : Char) : Bool :=
  c.isAlpha || c.isDigit || c == '_'

/-- JavaScript `padStart(2, '0')`. -/
def pad2 (l : List Char) : List Char :=
  List.replicate (2 - l.length) '0' ++ l

/-- The source's three-letter month table (keys lowercased before lookup). -/
def monthLookup (ms : List Char) : Option (List Char) :=
  match String.mk (toLowerL ms) with
  | "jan" => some ['0', '1']
  | "feb" => some ['0', '2']
  | "mar" => some ['0', '3']
  | "apr" => some ['0', '4']
  | "may" => some ['0', '5']
  | "jun" => some ['0', '6']
  | "jul" => some ['0', '7']
  | "aug" => some ['0', '8']
  | "sep" => some ['0', '9']
  | "oct" => some ['1', '0']
  | "nov" => some ['1', '1']
  | "dec" => some ['1', '2']
  | _ => none

/-- Match `^(\d{1,2})[\/\-\.](\d{1,2})[\/\-\.](\d{n})$` (each separator
drawn independently from the class), returning `(day, month, year)`. -/
def matchNumericDate (yearLen : Nat) (l : List Char) : Option (List Char × List Char × List Char) :=
  let d := l.takeWhile Char.isDigit
  if 1 ≤ d.length ∧ d.length ≤ 2 then
    match l.dropWhile Char.isDigit with
    | s1 :: r2 =>
      if isSep3 s1 then
        let m := r2.takeWhile Char.isDigit
        if 1 ≤ m.length ∧ m.length ≤ 2 then
          match r2.dropWhile Char.isDigit with
          | s2 :: r4 =>
            if isSep3 s2 then
              let y := r4.takeWhile Char.isDigit
              if y.length = yearLen ∧ r4.dropWhile Char.isDigit = [] then
                some (d, m, y)
              else none
            else none
          | [] => none
        else none
      else none
    | [] => none
  else none

/-- Match `^(\d{1,2})\s+(\w{3})\s+(\d{4})$`, returning `(day, monthStr, year)`. -/
def matchSpaceDate (l : List Char) : Option (List Char × List Char × List Char) :=
  let d := l.takeWhile Char.isDigit
  if 1 ≤ d.length ∧ d.length ≤ 2 then
    let r1 := l.dropWhile Char.isDigit
    let ws1 := r1.takeWhile isJsWs
    if ws1.isEmpty then none
    else
      match r1.dropWhile isJsWs with
      | a :: b :: c :: r2 =>
        if isWordChar a && isWordChar b && isWordChar c then
          let ws2 := r2.takeWhile isJsWs
          if ws2.isEmpty then none
          else
            let r3 := r2.dropWhile isJsWs
            let y := r3.takeWhile Char.isDigit
            if y.length = 4 ∧ r3.dropWhile Char.isDigit = [] then
              some (d, [a, b, c], y)
            else none
        else none
      | _ => none
  else none

/-- Match `^(\d{1,2})[\/\-](\w{3})[\/\-](\d{n})$`, returning
`(day, monthStr, year)`. -/
def matchMonthSepDate (yearLen : Nat) (l : List Char) : Option (List Char × List Char × List Char) :=
  let d := l.takeWhile Char.isDigit
  if 1 ≤ d.length ∧ d.length ≤ 2 then
    match l.dropWhile Char.isDigit with
    | s1 :: a :: b :: c :: r2 =>
      if isSep2 s1 && (isWordChar a && isWordChar b && isWordChar c) then
        match r2 with
        | s2 :: r3 =>
          if isSep2 s2 then
            let y := r3.takeWhile Char.isDigit
            if y.length = yearLen ∧ r3.dropWhile Char.isDigit = [] then
              some (d, [a, b, c], y)
            else none
          else none
        | [] => none
      else none
    | _ => none
  else none

/-- Match `^(\d{4})-(\d{2})-(\d{2})$`. -/
def matchIso (l : List Char) : Bool :=
  match l with
  | [y1, y2, y3, y4, h1, m1, m2, h2, d1, d2] =>
    (y1.isDigit && y2.isDigit && y3.isDigit && y4.isDigit) &&
      (h1 == '-' && h2 == '-') &&
      (m1.isDigit && m2.isDigit) && (d1.isDigit && d2.isDigit)
  | _ => false

/-- Century resolution for 2-digit years:
`parseInt(year) > 50 ? '19' + year : '20' + year`. -/
def fullYear (y : List Char) : List Char :=
  if digitsToNat y > 50 then '1' :: '9' :: y else '2' :: '0' :: y

/-- Assemble `Y-M-D` from already-rendered components. -/
def mkDate (y m d : List Char) : String :=
  String.mk (y ++ '-' :: (m ++ '-' :: d))

/-- `parseDate(dateStr)` on the character list: trim and unquote, then try
the source's six patterns in order, first match wins; unparseable input
yields `none` (the source's `null`). -/
def parseDateL (dateStr : List Char) : Option String :=
  if dateStr = [] then none
  else
    let cleaned := jsTrimL (stripQuotesL (jsTrimL dateStr))
    if cleaned.isEmpty then none
    else
      match matchNumericDate 4 cleaned with
      | some (d, m, y) => some (mkDate y (pad2 m) (pad2 d))
      | none =>
      match matchNumericDate 2 cleaned with
      | some (d, m, y) => some (mkDate (fullYear y) (pad2 m) (pad2 d))
      | none =>
      match (matchSpaceDate cleaned).bind
          (fun t => (monthLookup t.2.1).map (fun mm => mkDate t.2.2 mm (pad2 t.1))) with
      | some r => some r
      | none =>
      match (matchMonthSepDate 4 cleaned).bind
          (fun t => (monthLookup t.2.1).map (fun mm => mkDate t.2.2 mm (pad2 t.1))) with
      | some r => some r
      | none =>
      match (matchMonthSepDate 2 cleaned).bind
          (fun t => (monthLookup t.2.1).map (fun mm => mkDate (fullYear t.2.2) mm (pad2 t.1))) with
      | some r => some r
      | none =>
        if matchIso cleaned then some (String.mk cleaned) else none

/-- `parseDate(dateStr)` (an empty string is falsy in the source's guard). -/
def parseDate (dateStr : String) : Option String :=
  parseDateL dateStr.data

/-! ## `cleanDescription` (tsvParser.js lines 221-240)

The six noise regexes are modelled as matchers that try to match one
occurrence of the pattern at the head of a character list and return the
remainder; global replacement with the empty string is a left-to-right scan
that removes each leftmost match and continues after it. -/

/-- Case-insensitive literal match at the head of the input (the source
regexes carry the `i` flag); returns the remainder. -/
def litCI : List Char → List Char → Option (List Char)
  | [], l => some l
  | _ :: _, [] => none
  | p :: ps, x :: xs => if x.toLower == p.toLower then litCI ps xs else none

/-- `[A-Z]+` under the `i` flag: one or more ASCII letters. -/
def takeLetters1 (l : List Char) : Option (List Char) :=
  if (l.takeWhile Char.isAlpha).isEmpty then none
  else some (l.dropWhile Char.isAlpha)

/-- `\d+\/`: one or more digits then a slash. -/
def tailDigitsSlash (l : List Char) : Option (List Char) :=
  if (l.takeWhile Char.isDigit).isEmpty then none
  else
    match l.dropWhile Char.isDigit with
    | '/' :: r => some r
    | _ => none

/-- Noise pattern `PRE[A-Z]+\/\d+\//i` (used with the two transfer
prefixes, which already end in a slash). -/
def noiseA (pre : String) (l : List Char) : Option (List Char) :=
  match litCI pre.data l with
  | some r1 =>
    match takeLetters1 r1 with
    | some ('/' :: r2) => tailDigitsSlash r2
    | _ => none
  | none => none

/-- Noise pattern `PRE\d+\//i`. -/
def noiseB (pre : String) (l : List Char) : Option (List Char) :=
  match litCI pre.data l with
  | some r1 => tailDigitsSlash r1
  | none => none

/-- Fuelled scan of `.replace(pat, '')` with the `g` flag: at each position
try the matcher; on a match drop the matched characters and continue after
them, otherwise keep the character and advance.  Every matcher used here
consumes at least one character, so fuel equal to the input length is
exact. -/
def stripAllF : Nat → (List Char → Option (List Char)) → List Char → List Char
  | 0, _, l => l
  | _ + 1, _, [] => []
  | fuel + 1, p, c :: rest =>
    match p (c :: rest) with
    | some rem => stripAllF fuel p rem
    | none => c :: stripAllF fuel p rest

/-- Global replacement of every occurrence of the pattern by the empty
string. -/
def stripAll (p : List Char → Option (List Char)) (l : List Char) : List Char :=
  stripAllF l.length p l

/-- `.replace(/\s+/g, ' ')`: collapse every whitespace run to one space;
`prevWs` records whether the previous character belonged to a run. -/
def collapseWsAux (prevWs : Bool) : List Char → List Char
  | [] => []
  | c :: rest =>
    if isJsWs c then
      if prevWs then collapseWsAux true rest
      else ' ' :: collapseWsAux true rest
    else c :: collapseWsAux false rest

/-- `cleanDescription(description)` on the character list: strip the six
noise patterns in source order, collapse whitespace and trim. -/
def cleanDescriptionL (description : List Char) : List Char :=
  if description = [] then []
  else
    let l1 := stripAll (noiseA "TO TRANSFER-UPI/") description
    let l2 := stripAll (noiseA "BY TRANSFER-UPI/") l1
    let l3 := stripAll (noiseB "UPI/DR/") l2
    let l4 := stripAll (noiseB "UPI/CR/") l3
    let l5 := stripAll (noiseB "/DR/") l4
    let l6 := stripAll (noiseB "/CR/") l5
    jsTrimL (collapseWsAux false l6)

/-- `cleanDescription(description)` (an empty string is falsy in the
source's guard). -/
def cleanDescription (description : String) : String :=
  String.mk (cleanDescriptionL description.data)

/-! ## `findKey` (tsvParser.js lines 247-274) -/

/-- `'a' ≤ c ≤ 'z'`, the `[^a-z]` complement used by the word-boundary
regex (both sides are lowercased before the test). -/
def isLowerAZ (c : Char) : Bool :=
  'a' ≤ c && c ≤ 'z'

/-- One candidate position of `(^|[^a-z])needle([^a-z]|$)`: the needle
occurs literally at `i` and both neighbours (when present) are not
lowercase letters. -/
def wbMatchAt (hay needle : List Char) (i : Nat) : Bool :=
  needle.isPrefixOf (hay.drop i) &&
    (decide (i = 0) || !isLowerAZ (hay.getD (i - 1) ' ')) &&
    (decide (i + needle.length = hay.length) || !isLowerAZ (hay.getD (i + needle.length) ' '))

/-- `new RegExp((^|[^a-z])NAME([^a-z]|$)).test(lowerHeader)` with `NAME`
regex-escaped, i.e. matched literally. -/
def wordBoundaryTest (hay needle : List Char) : Bool :=
  (List.range (hay.length + 1)).any (wbMatchAt hay needle)

/-- `findKey(headers, possibleNames)`: pass 1 exact case-insensitive
match, pass 2 word-boundary containment; first header wins. -/
def findKey (headers possibleNames : List String) : Option String :=
  match headers.find? (fun h =>
      possibleNames.any (fun n =>
        jsTrimL (toLowerL h.data) == toLowerL n.data)) with
  | some h => some h
  | none =>
    headers.find? (fun h =>
      possibleNames.any (fun n =>
        wordBoundaryTest (jsTrimL (toLowerL h.data)) (toLowerL n.data)))

def dateNames : List String := ["txn date", "transaction date", "date", "txn_date"]
def valueDateNames : List String := ["value date", "value_date", "valdate"]
def descNames : List String := ["description", "particulars", "narration", "desc", "details"]
def refNames : List String := ["ref no", "ref no.", "cheque no", "cheque no.", "ref no./cheque no.", "ref no/cheque no", "reference"]
def debitNames : List String := ["debit", "withdrawal", "dr", "debit amount"]
def creditNames : List String := ["credit", "deposit", "cr", "credit amount"]
def balanceNames : List String := ["balance", "closing balance", "available balance"]

/-! ## `findHeaderRow` (tsvParser.js lines 72-97) -/

def requiredCols : List String := ["date", "debit", "credit", "balance"]
def descriptionCols : List String := ["description", "details", "particulars", "narration"]

/-- The source's `parseTabSeparatedLine(line).map(h => h.trim().toLowerCase())`. -/
def lowerTokens (line : String) : List (List Char) :=
  (parseTabSeparatedLine line).map (fun h => toLowerL (jsTrimL h.data))

/-- The header qualification test the source applies to one line: tokens
are trimmed and lowercased; the debit test only uses
`requiredCols.slice(1)`, i.e. the substrings debit, credit, balance. -/
def lineQualifies (line : String) : Bool :=
  let columns := lowerTokens line
  let hasDate := columns.any (fun c =>
    strIncludes c "date".data && !strIncludes c "statement".data && !strIncludes c "open".data)
  let hasDebit := columns.any (fun c =>
    (requiredCols.drop 1).any (fun req => strIncludes c req.data))
  let hasDescription := columns.any (fun c =>
    descriptionCols.any (fun d => strIncludes c d.data))
  hasDate && hasDebit && hasDescription

/-- `findHeaderRow(lines)`: first qualifying line among the first
`min(length, 50)`, else line 0 unconditionally. -/
def findHeaderRow (lines : List String) : Nat × List String :=
  match (List.range (min lines.length 50)).find? (fun i => lineQualifies (lines.getD i "")) with
  | some i => (i, (parseTabSeparatedLine (lines.getD i "")).map jsTrim)
  | none => (0, (parseTabSeparatedLine (lines.getD 0 "")).map jsTrim)

/-! ## `normalizeTransaction` (tsvParser.js lines 155-216) and
`parseTSV` (lines 7-66)

`generateId` calls `Date.now()` and `Math.random()`; it is modelled by an
explicit id supply `ids : Nat → String`, sampled once per emitted
transaction. -/

structure Transaction where
  id : String
  date : Option String
  valueDate : Option String
  description : String
  reference : String
  debit : Rat
  credit : Rat
  balance : Rat
  amount : Rat
  type : String
  category : Option String
  subcategory : Option String
  notes : String
deriving Repr, DecidableEq

/-- `raw[key]` with JavaScript object semantics for the mapped row: a
missing key (in particular a `null` role key) reads as empty. -/
def getField (raw : String → String) : Option String → String
  | none => ""
  | some k => raw k

/-- `normalizeTransaction(raw, headers)` with an explicit id. -/
def normalizeTransaction (idv : String) (raw : String → String) (headers : List String) : Option Transaction :=
  let dateKey := findKey headers dateNames
  let valueDateKey := findKey headers valueDateNames
  let descKey := findKey headers descNames
  let refKey := findKey headers refNames
  let debitKey := findKey headers debitNames
  let creditKey := findKey headers creditNames
  let balanceKey := findKey headers balanceNames
  let date := getField raw dateKey
  let description := getField raw descKey
  if date = "" ∨ description = "" then none
  else
    let debit := parseAmount (getField raw debitKey)
    let credit := parseAmount (getField raw creditKey)
    let balance := parseAmount (getField raw balanceKey)
    let vd := getField raw valueDateKey
    some {
      id := idv
      date := parseDate date
      valueDate := if vd = "" then none else parseDate vd
      description := cleanDescription description
      reference := getField raw refKey
      debit := debit
      credit := credit
      balance := balance
      amount := if credit > 0 then credit else -debit
      type := if credit > 0 then "credit" else "debit"
      category := none
      subcategory := none
      notes := "" }

/-- The mapped row object `transaction[header] = values[index] || ''`:
later duplicate headers overwrite earlier ones, absent keys read as
empty. -/
def buildRaw (headers values : List String) : String → String :=
  fun key =>
    match ((headers.zip values).reverse).find? (fun p => p.1 == key) with
    | some p => p.2
    | none => ""

/-- The data-row loop of `parseTSV`: tokenize, trim, skip all-empty rows,
pad to header width, map and normalize; `k` counts emitted transactions
(the id-supply index). -/
def processRows (ids : Nat → String) (k : Nat) (headers : List String) : List String → List Transaction
  | [] => []
  | line :: rest =>
    let values := (parseTabSeparatedLine line).map jsTrim
    if values.all (fun v => v = "") then processRows ids k headers rest
    else
      let padded := values ++ List.replicate (headers.length - values.length) ""
      match normalizeTransaction (ids k) (buildRaw headers padded) headers with
      | some t => t :: processRows ids (k + 1) headers rest
      | none => processRows ids k headers rest

/-- `parseTSV(content)` with an explicit id supply.  The source's second
`throw` (header index `-1`) is unreachable because `findHeaderRow` always
returns a non-negative index. -/
def parseTSV (ids : Nat → String) (content : String) : Except String (List Transaction) :=
  let lines := (splitNl (jsTrimL (nmfAux false content.data))).map String.mk
  if lines.length < 2 then Except.error "Invalid TSV file: No data rows found"
  else
    let hr := findHeaderRow lines
    Except.ok (processRows ids 0 hr.2 (lines.drop (hr.1 + 1)))

/-! ## Specification-side definitions

Definitions below this point are written from the words of the
specification and of the claims under scrutiny (not from the source); they
are compared against the source model by the theorems. -/

/-- The amount-column substring list as the specification words it
(including "withdrawal" and "deposit", which the source's
`requiredColumns.slice(1)` does not contain). -/
def claimAmountCols : List String :=
  ["debit", "credit", "balance", "withdrawal", "deposit"]

/-- The header qualification test as the claim words it: identical to the
source's except that the amount condition also accepts the substrings
"withdrawal" and "deposit". -/
def lineQualifiesClaim (line : String) : Bool :=
  let columns := lowerTokens line
  let hasDate := columns.any (fun c =>
    strIncludes c "date".data && !strIncludes c "statement".data && !strIncludes c "open".data)
  let hasAmount := columns.any (fun c =>
    claimAmountCols.any (fun req => strIncludes c req.data))
  let hasDescription := columns.any (fun c =>
    descriptionCols.any (fun d => strIncludes c d.data))
  hasDate && hasAmount && hasDescription

/-- Propositional substring containment of one character list in
another. -/
def containsSubL (t n : List Char) : Prop :=
  ∃ l r, t = l ++ n ++ r

/-- Propositional substring containment, the specification's reading of
JavaScript `includes`. -/
def containsSub (t : List Char) (sub : String) : Prop :=
  containsSubL t sub.data

/-- The three header conditions of the (amended) claim, stated
propositionally over the lower-cased trimmed tokens of a line. -/
def qualifiesSpec (line : String) : Prop :=
  (∃ t ∈ lowerTokens line, containsSub t "date" ∧ ¬containsSub t "statement" ∧ ¬containsSub t "open") ∧
  (∃ t ∈ lowerTokens line, containsSub t "debit" ∨ containsSub t "credit" ∨ containsSub t "balance") ∧
  (∃ t ∈ lowerTokens line, containsSub t "description" ∨ containsSub t "details" ∨
    containsSub t "particulars" ∨ containsSub t "narration")

/-- Forget the (impurely generated) id of a transaction. -/
def eraseId (t : Transaction) : Transaction :=
  { t with id := "" }

/-- The canonical two-character decimal rendering of `y < 100`. -/
def twoDigitChars (y : Nat) : List Char :=
  [Char.ofNat (48 + y / 10), Char.ofNat (48 + y % 10)]

/-- First character is a space. -/
def headIsSpace : List Char → Bool
  | [] => false
  | c :: _ => c == ' '

/-- No two adjacent space characters anywhere in the list. -/
def noDouble : List Char → Bool
  | [] => true
  | c :: rest => !(c == ' ' && headIsSpace rest) && noDouble rest

/-- Every whitespace character of the list is a plain space. -/
def wsOnlySpace (l : List Char) : Bool :=
  l.all (fun c => !isJsWs c || c == ' ')

/-- The first character, when present, is not whitespace. -/
def headNonWs : List Char → Bool
  | [] => true
  | c :: _ => !isJsWs c

/-- Last character is a space. -/
def lastIsSpace (l : List Char) : Bool :=
  match l.getLast? with
  | some c => c == ' '
  | none => false

/-! ## Helper lemmas -/

lemma takeWhile_all {α : Type} {p : α → Bool} :
    ∀ {l : List α}, (∀ c ∈ l, p c = true) → l.takeWhile p = l := by
  intro l h
  induction l with
  | nil => rfl
  | cons c cs ih =>
    rw [List.takeWhile_cons, h c (List.mem_cons_self c cs)]
    simp [ih fun x hx => h x (List.mem_cons_of_mem c hx)]

lemma dropWhile_all {α : Type} {p : α → Bool} :
    ∀ {l : List α}, (∀ c ∈ l, p c = true) → l.dropWhile p = [] := by
  intro l h
  induction l with
  | nil => rfl
  | cons c cs ih =>
    rw [List.dropWhile_cons, h c (List.mem_cons_self c cs)]
    simp [ih fun x hx => h x (List.mem_cons_of_mem c hx)]

lemma takeWhile_append_stop {α : Type} {p : α → Bool} {d r : List α} {s : α}
    (hd : ∀ c ∈ d, p c = true) (hs : p s = false) :
    (d ++ s :: r).takeWhile p = d := by
  induction d with
  | nil => simp [List.takeWhile_cons, hs]
  | cons c cs ih =>
    rw [List.cons_append, List.takeWhile_cons, hd c (List.mem_cons_self c cs)]
    simp [ih fun x hx => hd x (List.mem_cons_of_mem c hx)]

lemma dropWhile_append_stop {α : Type} {p : α → Bool} {d r : List α} {s : α}
    (hd : ∀ c ∈ d, p c = true) (hs : p s = false) :
    (d ++ s :: r).dropWhile p = s :: r := by
  induction d with
  | nil => simp [List.dropWhile_cons, hs]
  | cons c cs ih =>
    rw [List.cons_append, List.dropWhile_cons, hd c (List.mem_cons_self c cs)]
    simp [ih fun x hx => hd x (List.mem_cons_of_mem c hx)]

lemma dropWhile_no {α : Type} {p : α → Bool} {l : List α}
    (h : ∀ c ∈ l, p c = false) : l.dropWhile p = l := by
  cases l with
  | nil => rfl
  | cons c cs => rw [List.dropWhile_cons, h c (List.mem_cons_self c cs)]; simp

lemma jsTrimL_no_ws {l : List Char} (h : ∀ c ∈ l, isJsWs c = false) :
    jsTrimL l = l := by
  unfold jsTrimL
  rw [dropWhile_no h, dropWhile_no (by intro c hc; exact h c (List.mem_reverse.mp hc)),
    List.reverse_reverse]

lemma dropLeadQuote_no {l : List Char} (h : ∀ c ∈ l, isQuoteChar c = false) :
    dropLeadQuote l = l := by
  cases l with
  | nil => rfl
  | cons c cs =>
    rw [show dropLeadQuote (c :: cs) = if isQuoteChar c = true then cs else c :: cs from rfl,
      h c (List.mem_cons_self c cs)]
    simp

lemma stripQuotesL_no {l : List Char} (h : ∀ c ∈ l, isQuoteChar c = false) :
    stripQuotesL l = l := by
  unfold stripQuotesL dropLastQuote
  rw [dropLeadQuote_no h,
    dropLeadQuote_no (by intro c hc; exact h c (List.mem_reverse.mp hc)),
    List.reverse_reverse]

lemma of_isJsWs {c : Char} (h : isJsWs c = true) :
    c = ' ' ∨ c = '\t' ∨ c = '\n' ∨ c = '\r' ∨ c = '\x0b' ∨ c = '\x0c' := by
  simp only [isJsWs, Bool.or_eq_true, beq_iff_eq] at h
  tauto

lemma of_isSep3 {c : Char} (h : isSep3 c = true) : c = '/' ∨ c = '-' ∨ c = '.' := by
  simp only [isSep3, Bool.or_eq_true, beq_iff_eq] at h
  tauto

lemma digit_not_ws {c : Char} (h : c.isDigit = true) : isJsWs c = false := by
  cases hw : isJsWs c with
  | false => rfl
  | true =>
    rcases of_isJsWs hw with rfl | rfl | rfl | rfl | rfl | rfl <;> exact absurd h (by decide)

lemma digit_not_quote {c : Char} (h : c.isDigit = true) : isQuoteChar c = false := by
  cases hw : isQuoteChar c with
  | false => rfl
  | true =>
    simp only [isQuoteChar, Bool.or_eq_true, beq_iff_eq] at hw
    rcases hw with rfl | rfl <;> exact absurd h (by decide)

lemma sep3_not_ws {c : Char} (h : isSep3 c = true) : isJsWs c = false := by
  rcases of_isSep3 h with rfl | rfl | rfl <;> rfl

lemma sep3_not_quote {c : Char} (h : isSep3 c = true) : isQuoteChar c = false := by
  rcases of_isSep3 h with rfl | rfl | rfl <;> rfl

lemma sep3_not_digit {c : Char} (h : isSep3 c = true) : c.isDigit = false := by
  rcases of_isSep3 h with rfl | rfl | rfl <;> rfl

lemma parseAmountL_trim_congr {l l' : List Char} (h : jsTrimL l = jsTrimL l') :
    parseAmountL l = parseAmountL l' := by
  unfold parseAmountL
  rw [h]

/-! ## Claim C4 -/

/-- Claim C4: `parseAmount` trims its input, treats empty input as 0,
strips quotes, commas and the currency symbols, and parses the remainder as
a number with non-numeric results yielding 0; in particular
`parseAmount("2,83,295.35") = 283295.35`, `parseAmount("") = 0`,
`parseAmount("₹1,131.19") = 1131.19` and `parseAmount("abc") = 0`. -/
theorem c4_parseAmount_behaviour :
    parseAmount "2,83,295.35" = 283295.35 ∧
    parseAmount "" = 0 ∧
    parseAmount "₹1,131.19" = 1131.19 ∧
    parseAmount "abc" = 0 ∧
    ∀ s : String, parseAmount (String.mk (' ' :: s.data)) = parseAmount s := by
  refine ⟨?_, by decide, ?_, by decide, ?_⟩
  · have h : parseAmount "2,83,295.35" = mkRat 28329535 100 := by decide
    have h2 : (283295.35 : Rat) = mkRat 28329535 100 := by norm_num [Rat.mkRat_eq_div]
    rw [h, h2]
  · have h : parseAmount "₹1,131.19" = mkRat 113119 100 := by decide
    have h2 : (1131.19 : Rat) = mkRat 113119 100 := by norm_num [Rat.mkRat_eq_div]
    rw [h, h2]
  · intro s
    show parseAmountL (' ' :: s.data) = parseAmountL s.data
    refine parseAmountL_trim_congr ?_
    simp [jsTrimL, List.dropWhile_cons, isJsWs]

/-! ## Claim C3 -/

/-- Claim C3: `parseDate` tries its formats in the spec's fixed order with
first match winning; two-digit years resolve to `19YY` for `YY > 50` and
`20YY` otherwise (shown for all `YY < 100` on the numeric form, and on the
month-abbreviation form by `01-Jan-24`); `parseDate("01/04/2024") =
"2024-04-01"`, `parseDate("01-Jan-24") = "2024-01-01"`,
`parseDate("15/03/99") = "1999-03-15"`; unmatched input yields the absent
marker. -/
theorem c3_parseDate_formats :
    parseDate "01/04/2024" = some "2024-04-01" ∧
    parseDate "01-Jan-24" = some "2024-01-01" ∧
    parseDate "15/03/99" = some "1999-03-15" ∧
    parseDate "not a date" = none ∧
    ∀ y : Nat, y < 100 →
      parseDate (String.mk (['1', '5', '/', '0', '3', '/'] ++ twoDigitChars y)) =
        some (String.mk ((if 50 < y then ['1', '9'] else ['2', '0']) ++
          (twoDigitChars y ++ ['-', '0', '3', '-', '1', '5']))) := by
  refine ⟨by decide, by decide, by decide, by decide, ?_⟩
  decide

/-- Witness for C3: the bounded century-resolution conjunct applied at the
concrete year 99. -/
theorem c3_parseDate_formats_witness :
    parseDate (String.mk (['1', '5', '/', '0', '3', '/'] ++ twoDigitChars 99)) =
      some (String.mk ((if 50 < 99 then ['1', '9'] else ['2', '0']) ++
        (twoDigitChars 99 ++ ['-', '0', '3', '-', '1', '5']))) :=
  c3_parseDate_formats.2.2.2.2 99 (by decide)

/-! ## Claim C10 -/

/-- Claim C10: `parseDate` performs no calendar-range validation — every
input of shape digits(1-2) sep digits(1-2) sep digits(4) with separators
from `/ - .` is rearranged to `YYYY-MM-DD` with zero-padding, with no bound
on the day or month values. -/
theorem c10_parseDate_no_range_check (d m y : List Char) (s1 s2 : Char)
    (hd1 : d ≠ []) (hd2 : d.length ≤ 2) (hd3 : ∀ c ∈ d, c.isDigit = true)
    (hm1 : m ≠ []) (hm2 : m.length ≤ 2) (hm3 : ∀ c ∈ m, c.isDigit = true)
    (hy1 : y.length = 4) (hy3 : ∀ c ∈ y, c.isDigit = true)
    (hs1 : isSep3 s1 = true) (hs2 : isSep3 s2 = true) :
    parseDate (String.mk (d ++ s1 :: (m ++ s2 :: y))) =
      some (String.mk (y ++ '-' :: ((List.replicate (2 - m.length) '0' ++ m) ++
        '-' :: (List.replicate (2 - d.length) '0' ++ d)))) := by
  set L := d ++ s1 :: (m ++ s2 :: y) with hL
  have hmem : ∀ c ∈ L, c.isDigit = true ∨ isSep3 c = true := by
    intro c hc
    rw [hL] at hc
    rcases List.mem_append.mp hc with h | h
    · exact Or.inl (hd3 c h)
    · rcases List.mem_cons.mp h with rfl | h
      · exact Or.inr hs1
      · rcases List.mem_append.mp h with h | h
        · exact Or.inl (hm3 c h)
        · rcases List.mem_cons.mp h with rfl | h
          · exact Or.inr hs2
          · exact Or.inl (hy3 c h)
  have hnws : ∀ c ∈ L, isJsWs c = false := by
    intro c hc
    rcases hmem c hc with h | h
    · exact digit_not_ws h
    · exact sep3_not_ws h
  have hnq : ∀ c ∈ L, isQuoteChar c = false := by
    intro c hc
    rcases hmem c hc with h | h
    · exact digit_not_quote h
    · exact sep3_not_quote h
  have hclean : jsTrimL (stripQuotesL (jsTrimL L)) = L := by
    rw [jsTrimL_no_ws hnws, stripQuotesL_no hnq, jsTrimL_no_ws hnws]
  have hLne : L ≠ [] := by
    rw [hL]
    rcases List.exists_cons_of_ne_nil hd1 with ⟨a, d', rfl⟩
    simp
  have hd0 : 1 ≤ d.length := List.length_pos.mpr hd1
  have hm0 : 1 ≤ m.length := List.length_pos.mpr hm1
  have hmatch : matchNumericDate 4 L = some (d, m, y) := by
    simp only [matchNumericDate, hL,
      takeWhile_append_stop hd3 (sep3_not_digit hs1),
      dropWhile_append_stop hd3 (sep3_not_digit hs1),
      takeWhile_append_stop hm3 (sep3_not_digit hs2),
      dropWhile_append_stop hm3 (sep3_not_digit hs2),
      takeWhile_all hy3, dropWhile_all hy3]
    simp [hd0, hd2, hm0, hm2, hy1, hs1, hs2]
  have hie : L.isEmpty = false := by
    cases hLcase : L with
    | nil => exact absurd hLcase hLne
    | cons a as => rfl
  show parseDateL L = _
  simp only [parseDateL, hclean, hie, hmatch, hLne]
  simp [mkDate, pad2]

/-- Witness for C10: `parseDate("32/13/2024") = "2024-13-32"`, a string
that denotes no valid calendar date. -/
theorem c10_parseDate_no_range_check_witness :
    parseDate "32/13/2024" = some "2024-13-32" := by
  have h := c10_parseDate_no_range_check ['3', '2'] ['1', '3'] ['2', '0', '2', '4'] '/' '/'
    (by decide) (by decide) (by decide) (by decide) (by decide) (by decide)
    (by decide) (by decide) (by decide) (by decide)
  exact h

/-! ## Claim C5 -/

lemma ptslAux_length :
    ∀ (l : List Char) (b : Bool) (cur : List Char),
      (ptslAux b cur l).length = countUnquotedTabs b l + 1 := by
  intro l
  induction l with
  | nil => intro b cur; rfl
  | cons c rest ih =>
    intro b cur
    unfold ptslAux countUnquotedTabs
    cases h1 : (c == '"') with
    | true => simp [h1, ih]
    | false =>
      cases h2 : (c == '\t' && !b) with
      | true => simp [h1, h2, ih]
      | false => simp [h1, h2, ih]

lemma ptslAux_quoted :
    ∀ (inner cur : List Char), '"' ∉ inner →
      ptslAux true cur (inner ++ ['"']) = [String.mk (jsTrimL (cur ++ inner))] := by
  intro inner
  induction inner with
  | nil => intro cur h; simp [ptslAux]
  | cons c cs ih =>
    intro cur h
    have hc : (c == '"') = false := by
      simp only [beq_eq_false_iff_ne, ne_eq]
      exact fun hh => h (hh ▸ List.mem_cons_self c cs)
    have hstep : ptslAux true cur ((c :: cs) ++ ['"']) = ptslAux true (cur ++ [c]) (cs ++ ['"']) := by
      simp [ptslAux, hc]
    rw [hstep, ih (cur ++ [c]) (fun hm => h (List.mem_cons_of_mem c hm))]
    simp

/-- Claim C5: the row tokenizer splits on unquoted tabs with the quote flag
toggled by every `"`, always pushes the final (possibly empty) field — the
output length is always one more than the number of unquoted tabs — and a
line whose content lies entirely inside quotes tokenizes to the single
field given by trimming that content, quotes stripped and interior tabs
preserved. -/
theorem c5_tokenizer_quote_aware :
    (∀ line : String,
      (parseTabSeparatedLine line).length = countUnquotedTabs false line.data + 1) ∧
    (∀ inner : List Char, '"' ∉ inner →
      parseTabSeparatedLine (String.mk ('"' :: (inner ++ ['"']))) = [String.mk (jsTrimL inner)]) := by
  constructor
  · intro line
    exact ptslAux_length line.data false []
  · intro inner h
    show ptslAux false [] ('"' :: (inner ++ ['"'])) = _
    have hstep : ptslAux false [] ('"' :: (inner ++ ['"'])) = ptslAux true [] (inner ++ ['"']) := by
      simp [ptslAux]
    rw [hstep, ptslAux_quoted inner [] h]
    simp

/-- Witness for C5: the fully quoted tab-containing line `"a<TAB>b"`
tokenizes to the single field `a<TAB>b`. -/
theorem c5_tokenizer_quote_aware_witness :
    parseTabSeparatedLine (String.mk ('"' :: (['a', '\t', 'b'] ++ ['"']))) =
      [String.mk (jsTrimL ['a', '\t', 'b'])] :=
  c5_tokenizer_quote_aware.2 ['a', '\t', 'b'] (by decide)

/-! ## Claim C8 -/

/-- Claim C8: whenever the input, after quote-aware newline normalization,
trimming and splitting on newlines, has fewer than 2 lines, `parseTSV`
throws (is a hard failure, not an empty or partial result). -/
theorem c8_too_few_lines_throws (ids : Nat → String) (content : String)
    (h : (splitNl (jsTrimL (nmfAux false content.data))).length < 2) :
    parseTSV ids content = Except.error "Invalid TSV file: No data rows found" := by
  have hlen : ((splitNl (jsTrimL (nmfAux false content.data))).map String.mk).length < 2 := by
    simpa using h
  simp only [parseTSV]
  rw [if_pos hlen]

/-- Witness for C8: a single-line input is rejected with the source's
error message. -/
theorem c8_too_few_lines_throws_witness :
    (splitNl (jsTrimL (nmfAux false ("abc" : String).data))).length < 2 ∧
      parseTSV (fun _ => "") "abc" = Except.error "Invalid TSV file: No data rows found" :=
  ⟨by decide, c8_too_few_lines_throws (fun _ => "") "abc" (by decide)⟩

/-! ## Claim C2 -/

lemma normalize_none_iff {idv : String} {raw : String → String} {headers : List String} :
    normalizeTransaction idv raw headers = none ↔
      getField raw (findKey headers dateNames) = "" ∨
        getField raw (findKey headers descNames) = "" := by
  by_cases h : getField raw (findKey headers dateNames) = "" ∨
      getField raw (findKey headers descNames) = "" <;>
    simp [normalizeTransaction, h]

lemma normalize_some_fields {idv : String} {raw : String → String} {headers : List String}
    {t : Transaction} (h : normalizeTransaction idv raw headers = some t) :
    t.id = idv ∧
    t.date = parseDate (getField raw (findKey headers dateNames)) ∧
    t.description = cleanDescription (getField raw (findKey headers descNames)) ∧
    t.reference = getField raw (findKey headers refNames) ∧
    t.debit = parseAmount (getField raw (findKey headers debitNames)) ∧
    t.credit = parseAmount (getField raw (findKey headers creditNames)) ∧
    t.balance = parseAmount (getField raw (findKey headers balanceNames)) ∧
    t.valueDate = (if getField raw (findKey headers valueDateNames) = "" then none
      else parseDate (getField raw (findKey headers valueDateNames))) := by
  by_cases hc : getField raw (findKey headers dateNames) = "" ∨
      getField raw (findKey headers descNames) = ""
  · simp [normalizeTransaction, hc] at h
  · simp only [normalizeTransaction, if_neg hc, Option.some.injEq] at h
    subst h
    exact ⟨rfl, rfl, rfl, rfl, rfl, rfl, rfl, rfl⟩

/-- Claim C2: the field normalizer returns `null` exactly when the resolved
date or description string is empty; when a transaction is emitted its
amounts go through the total `parseAmount` (unparseable → 0), its date is
whatever `parseDate` yields on the raw date (possibly the absent marker,
without rejection), and an empty or unparseable value date becomes
absent. -/
theorem c2_rejection_iff_empty_date_or_description
    (idv : String) (raw : String → String) (headers : List String) :
    (normalizeTransaction idv raw headers = none ↔
      getField raw (findKey headers dateNames) = "" ∨
        getField raw (findKey headers descNames) = "") ∧
    (∀ t, normalizeTransaction idv raw headers = some t →
      t.date = parseDate (getField raw (findKey headers dateNames)) ∧
      t.debit = parseAmount (getField raw (findKey headers debitNames)) ∧
      t.credit = parseAmount (getField raw (findKey headers creditNames)) ∧
      t.balance = parseAmount (getField raw (findKey headers balanceNames)) ∧
      t.valueDate = (if getField raw (findKey headers valueDateNames) = "" then none
        else parseDate (getField raw (findKey headers valueDateNames)))) := by
  refine ⟨normalize_none_iff, fun t ht => ?_⟩
  obtain ⟨-, h1, -, -, h2, h3, h4, h5⟩ := normalize_some_fields ht
  exact ⟨h1, h2, h3, h4, h5⟩

/-- Witness for C2: a row whose date `"9x9"` is non-empty but unparseable
and whose debit `"abc"` is unparseable is still emitted, with the absent
date marker and a zero debit. -/
theorem c2_rejection_iff_empty_date_or_description_witness :
    ({ id := "i", date := none, valueDate := none, description := "D", reference := "",
       debit := 0, credit := 0, balance := 0, amount := 0, type := "debit",
       category := none, subcategory := none, notes := "" } : Transaction).date =
        parseDate (getField (buildRaw ["Date", "Description", "Debit"] ["9x9", "D", "abc"])
          (findKey ["Date", "Description", "Debit"] dateNames)) ∧
    ({ id := "i", date := none, valueDate := none, description := "D", reference := "",
       debit := 0, credit := 0, balance := 0, amount := 0, type := "debit",
       category := none, subcategory := none, notes := "" } : Transaction).debit =
        parseAmount (getField (buildRaw ["Date", "Description", "Debit"] ["9x9", "D", "abc"])
          (findKey ["Date", "Description", "Debit"] debitNames)) ∧
    ({ id := "i", date := none, valueDate := none, description := "D", reference := "",
       debit := 0, credit := 0, balance := 0, amount := 0, type := "debit",
       category := none, subcategory := none, notes := "" } : Transaction).credit =
        parseAmount (getField (buildRaw ["Date", "Description", "Debit"] ["9x9", "D", "abc"])
          (findKey ["Date", "Description", "Debit"] creditNames)) ∧
    ({ id := "i", date := none, valueDate := none, description := "D", reference := "",
       debit := 0, credit := 0, balance := 0, amount := 0, type := "debit",
       category := none, subcategory := none, notes := "" } : Transaction).balance =
        parseAmount (getField (buildRaw ["Date", "Description", "Debit"] ["9x9", "D", "abc"])
          (findKey ["Date", "Description", "Debit"] balanceNames)) ∧
    ({ id := "i", date := none, valueDate := none, description := "D", reference := "",
       debit := 0, credit := 0, balance := 0, amount := 0, type := "debit",
       category := none, subcategory := none, notes := "" } : Transaction).valueDate =
      (if getField (buildRaw ["Date", "Description", "Debit"] ["9x9", "D", "abc"])
          (findKey ["Date", "Description", "Debit"] valueDateNames) = "" then none
        else parseDate (getField (buildRaw ["Date", "Description", "Debit"] ["9x9", "D", "abc"])
          (findKey ["Date", "Description", "Debit"] valueDateNames))) :=
  (c2_rejection_iff_empty_date_or_description "i"
      (buildRaw ["Date", "Description", "Debit"] ["9x9", "D", "abc"])
      ["Date", "Description", "Debit"]).2
    { id := "i", date := none, valueDate := none, description := "D", reference := "",
      debit := 0, credit := 0, balance := 0, amount := 0, type := "debit",
      category := none, subcategory := none, notes := "" }
    (by decide)

/-! ## Claim C9 -/

lemma mem_of_dropWhile {α : Type} {p : α → Bool} {l : List α} {c : α}
    (h : c ∈ l.dropWhile p) : c ∈ l :=
  (List.dropWhile_sublist p).subset h

lemma mem_of_jsTrimL {l : List Char} {c : Char} (h : c ∈ jsTrimL l) : c ∈ l := by
  unfold jsTrimL at h
  rw [List.mem_reverse] at h
  have h2 := mem_of_dropWhile h
  rw [List.mem_reverse] at h2
  exact mem_of_dropWhile h2

lemma mem_of_dropLeadQuote {l : List Char} {c : Char} (h : c ∈ dropLeadQuote l) : c ∈ l := by
  cases l with
  | nil => exact h
  | cons a as =>
    rw [show dropLeadQuote (a :: as) = if isQuoteChar a then as else a :: as from rfl] at h
    by_cases hq : isQuoteChar a <;> simp [hq] at h
    · exact List.mem_cons_of_mem a h
    · simpa using h

lemma mem_of_stripQuotesL {l : List Char} {c : Char} (h : c ∈ stripQuotesL l) : c ∈ l := by
  unfold stripQuotesL dropLastQuote at h
  rw [List.mem_reverse] at h
  have h2 := mem_of_dropLeadQuote h
  rw [List.mem_reverse] at h2
  exact mem_of_dropLeadQuote h2

lemma sciToRat_nonneg (mant scale : Nat) (e : Int) : 0 ≤ sciToRat false mant scale e := by
  show 0 ≤ if 0 ≤ e - (scale : Int) then
      mkRat ((mant : Int) * ((10 ^ (e - (scale : Int)).toNat : Nat) : Int)) 1
    else mkRat (mant : Int) (10 ^ (-(e - (scale : Int))).toNat)
  split
  · rw [Rat.mkRat_eq_div]
    apply div_nonneg
    · have h0 : (0 : Int) ≤ (mant : Int) * ((10 ^ (e - (scale : Int)).toNat : Nat) : Int) :=
        mul_nonneg (Int.natCast_nonneg _) (Int.natCast_nonneg _)
      exact_mod_cast h0
    · norm_num
  · rw [Rat.mkRat_eq_div]
    apply div_nonneg
    · exact_mod_cast Int.natCast_nonneg mant
    · positivity

lemma jsParseFloat_nonneg {l : List Char} (h : '-' ∉ l) {q : Rat}
    (hq : jsParseFloat l = some q) : 0 ≤ q := by
  have hnotm : ∀ c ∈ l.dropWhile isJsWs, c ≠ '-' := by
    intro c hc he
    exact h (he ▸ mem_of_dropWhile hc)
  unfold jsParseFloat at hq
  rcases hcase : l.dropWhile isJsWs with _ | ⟨c, rest⟩
  · rw [hcase] at hq
    exact absurd hq (by simp)
  · rw [hcase] at hq
    have hcm : (c == '-') = false := by
      simp only [beq_eq_false_iff_ne, ne_eq]
      exact hnotm c (hcase ▸ List.mem_cons_self c rest)
    by_cases hcp : (c == '+') = true <;>
      simp only [hcm, hcp, Bool.false_eq_true, if_false, if_true] at hq <;>
      · rcases Option.map_eq_some'.mp hq with ⟨t, -, rfl⟩
        exact sciToRat_nonneg t.1 t.2.1 (parseExp t.2.2)

lemma parseAmountL_nonneg {l : List Char} (h : '-' ∉ l) : 0 ≤ parseAmountL l := by
  have h3 : '-' ∉ jsTrimL (((stripQuotesL (jsTrimL l)).filter (fun c => c != ',')).filter
      (fun c => c != '₹' && c != '$')) := by
    intro hm
    exact h (mem_of_jsTrimL (mem_of_stripQuotesL
      (List.mem_filter.mp (List.mem_filter.mp (mem_of_jsTrimL hm)).1).1))
  simp only [parseAmountL]
  split
  · exact le_refl 0
  · split
    · exact le_refl 0
    · split
      · next q heq => exact jsParseFloat_nonneg h3 heq
      · exact le_refl 0

/-- Counterexample for C9 as stated: a data row carrying a negative raw
debit value `-5` is emitted with a negative `debit` field. -/
theorem c9_counterexample :
    ((parseTSV (fun _ => "i")
        "Date\tDescription\tDebit\tCredit\tBalance\n01/01/2024\tX\t-5\t\t0").toOption.getD
      []).any (fun t => decide (t.debit < 0)) = true := by
  decide

/-- Claim C9 (amended): `debit` and `credit` are `parseAmount` of the raw
fields with no sign clamping; they are non-negative whenever the raw debit
and credit strings contain no `-` character. -/
theorem c9_amounts_nonneg_without_minus
    (idv : String) (raw : String → String) (headers : List String) (t : Transaction)
    (h : normalizeTransaction idv raw headers = some t)
    (hd : '-' ∉ (getField raw (findKey headers debitNames)).data)
    (hc : '-' ∉ (getField raw (findKey headers creditNames)).data) :
    0 ≤ t.debit ∧ 0 ≤ t.credit := by
  obtain ⟨-, -, -, -, h1, h2, -, -⟩ := normalize_some_fields h
  rw [h1, h2]
  exact ⟨parseAmountL_nonneg hd, parseAmountL_nonneg hc⟩

/-- Witness for C9 (amended): a concrete emitted transaction with raw
amounts `5` and `2` has non-negative debit and credit. -/
theorem c9_amounts_nonneg_without_minus_witness :
    0 ≤ (Transaction.mk "i" (some "2024-01-01") none "X" "" 5 2 0 2 "credit" none none "").debit ∧
    0 ≤ (Transaction.mk "i" (some "2024-01-01") none "X" "" 5 2 0 2 "credit" none none "").credit :=
  c9_amounts_nonneg_without_minus "i"
    (buildRaw ["Date", "Description", "Debit", "Credit"] ["01/01/2024", "X", "5", "2"])
    ["Date", "Description", "Debit", "Credit"]
    (Transaction.mk "i" (some "2024-01-01") none "X" "" 5 2 0 2 "credit" none none "")
    (by decide) (by decide) (by decide)

/-! ## Claim C7 -/

lemma normalize_erase_eq (id1 id2 : String) (raw : String → String) (headers : List String) :
    Option.map eraseId (normalizeTransaction id1 raw headers) =
      Option.map eraseId (normalizeTransaction id2 raw headers) := by
  by_cases h : getField raw (findKey headers dateNames) = "" ∨
      getField raw (findKey headers descNames) = "" <;>
    simp [normalizeTransaction, h, eraseId]

lemma processRows_erase (ids1 ids2 : Nat → String) (headers : List String) :
    ∀ (ls : List String) (k1 k2 : Nat),
      (processRows ids1 k1 headers ls).map eraseId = (processRows ids2 k2 headers ls).map eraseId := by
  intro ls
  induction ls with
  | nil => intro k1 k2; rfl
  | cons line rest ih =>
    intro k1 k2
    simp only [processRows]
    by_cases hemp : ((parseTabSeparatedLine line).map jsTrim).all (fun v => v = "") = true
    · simp only [hemp, if_true]
      exact ih k1 k2
    · simp only [Bool.not_eq_true] at hemp
      simp only [hemp, Bool.false_eq_true, if_false]
      have hmap := normalize_erase_eq (ids1 k1) (ids2 k2)
        (buildRaw headers
          ((parseTabSeparatedLine line).map jsTrim ++
            List.replicate (headers.length - ((parseTabSeparatedLine line).map jsTrim).length) ""))
        headers
      rcases h1 : normalizeTransaction (ids1 k1)
          (buildRaw headers
            ((parseTabSeparatedLine line).map jsTrim ++
              List.replicate (headers.length - ((parseTabSeparatedLine line).map jsTrim).length) ""))
          headers with _ | t1 <;>
        rcases h2 : normalizeTransaction (ids2 k2)
            (buildRaw headers
              ((parseTabSeparatedLine line).map jsTrim ++
                List.replicate (headers.length - ((parseTabSeparatedLine line).map jsTrim).length) ""))
            headers with _ | t2 <;>
        rw [h1, h2] at hmap <;> simp only [Option.map_none', Option.map_some'] at hmap
      · exact ih k1 k2
      · exact absurd hmap (by simp)
      · exact absurd hmap (by simp)
      · simp only [Option.some.injEq] at hmap
        simp only [List.map_cons]
        rw [hmap, ih (k1 + 1) (k2 + 1)]

/-- Counterexample for C7 as stated: two invocations of the parser on the
same input (modelled by two id supplies, as `generateId` draws from
`Date.now()` and `Math.random()`) return different transaction
sequences. -/
theorem c7_counterexample :
    (parseTSV (fun _ => "A")
        "Date\tDescription\tDebit\tCredit\tBalance\n01/01/2024\tX\t5\t\t0").toOption ≠
      (parseTSV (fun _ => "B")
        "Date\tDescription\tDebit\tCredit\tBalance\n01/01/2024\tX\t5\t\t0").toOption := by
  decide

/-- Claim C7 (amended): the parser is deterministic in everything except
the generated `id` field — for any two id supplies (two invocations), the
outputs agree after erasing ids. -/
theorem c7_deterministic_up_to_id (ids1 ids2 : Nat → String) (content : String) :
    (parseTSV ids1 content).map (List.map eraseId) =
      (parseTSV ids2 content).map (List.map eraseId) := by
  simp only [parseTSV]
  split
  · rfl
  · simp only [Except.map]
    rw [processRows_erase]

/-! ## Claim C1 -/

lemma isPrefixOf_ex {n t : List Char} : n.isPrefixOf t = true ↔ ∃ r, t = n ++ r := by
  induction n generalizing t with
  | nil => simp [List.isPrefixOf]
  | cons a as ih =>
    cases t with
    | nil => simp [List.isPrefixOf]
    | cons b bs =>
      simp only [List.isPrefixOf, Bool.and_eq_true, beq_iff_eq, ih, List.cons_append,
        List.cons.injEq]
      constructor
      · rintro ⟨rfl, r, rfl⟩
        exact ⟨r, rfl, rfl⟩
      · rintro ⟨r, rfl, rfl⟩
        exact ⟨rfl, r, rfl⟩

lemma strIncludes_iff {t n : List Char} : strIncludes t n = true ↔ containsSubL t n := by
  unfold strIncludes containsSubL
  rw [List.any_eq_true]
  constructor
  · rintro ⟨x, hx, hpre⟩
    obtain ⟨l, rfl⟩ := (List.mem_tails x t).mp hx
    obtain ⟨r, rfl⟩ := isPrefixOf_ex.mp hpre
    exact ⟨l, r, by simp⟩
  · rintro ⟨l, r, rfl⟩
    exact ⟨n ++ r, (List.mem_tails _ _).mpr ⟨l, by simp⟩, isPrefixOf_ex.mpr ⟨r, rfl⟩⟩

lemma strIncludes_false_iff {t n : List Char} :
    strIncludes t n = false ↔ ¬containsSubL t n := by
  rw [← strIncludes_iff]
  cases strIncludes t n <;> simp

lemma lineQualifies_iff {line : String} : lineQualifies line = true ↔ qualifiesSpec line := by
  have hdrop : requiredCols.drop 1 = ["debit", "credit", "balance"] := rfl
  unfold lineQualifies qualifiesSpec
  rw [hdrop]
  simp only [descriptionCols, Bool.and_eq_true, List.any_eq_true, List.any_cons, List.any_nil,
    Bool.or_eq_true, Bool.false_eq_true, or_false, strIncludes_iff, strIncludes_false_iff,
    Bool.not_eq_true', containsSub, and_assoc]

lemma find?_none_all {α : Type} {p : α → Bool} :
    ∀ {l : List α}, l.find? p = none → ∀ x ∈ l, p x = false := by
  intro l
  induction l with
  | nil => intro _ x hx; cases hx
  | cons a as ih =>
    intro h x hx
    rw [List.find?_cons] at h
    rcases hp : p a with _ | _
    · rw [hp] at h
      rcases List.mem_cons.mp hx with rfl | hx2
      · exact hp
      · exact ih h x hx2
    · rw [hp] at h
      cases h

lemma find_range_none {p : Nat → Bool} {n : Nat} (h : (List.range n).find? p = none) :
    ∀ j < n, p j = false := by
  intro j hj
  exact find?_none_all h j (List.mem_range.mpr hj)

lemma find_range_some {p : Nat → Bool} :
    ∀ {n i : Nat}, (List.range n).find? p = some i →
      i < n ∧ p i = true ∧ ∀ j < i, p j = false := by
  intro n
  induction n with
  | zero => intro i h; cases h
  | succ m ih =>
    intro i h
    rw [List.range_succ, List.find?_append] at h
    rcases hm : (List.range m).find? p with _ | j
    · rw [hm] at h
      simp only [Option.none_or] at h
      rw [List.find?_cons] at h
      rcases hp : p m with _ | _ <;> rw [hp] at h
      · cases h
      · cases h
        exact ⟨Nat.lt_succ_self m, hp, find_range_none hm⟩
    · rw [hm] at h
      simp only [Option.or_some] at h
      cases h
      obtain ⟨h1, h2, h3⟩ := ih hm
      exact ⟨Nat.lt_succ_of_lt h1, h2, h3⟩

/-- Counterexample for C1 as stated: line 1 satisfies all three of the
claim's conditions (its amount condition through the "withdrawal"
substring) while line 0 satisfies none, yet the locator does not return
line 1 — the source's amount condition checks only the substrings
debit/credit/balance, so no line qualifies and the scan falls back to
line 0. -/
theorem c1_counterexample :
    lineQualifiesClaim "meta" = false ∧
    lineQualifiesClaim "Date\tWithdrawal\tParticulars" = true ∧
    findHeaderRow ["meta", "Date\tWithdrawal\tParticulars"] = (0, ["meta"]) := by
  exact ⟨by decide, by decide, by decide⟩

/-- Claim C1 (amended): the header locator scans the first `min(total, 50)`
lines and returns the first (0-indexed) line whose lower-cased trimmed
tokens satisfy the three conditions — with the amount condition limited to
the substrings debit, credit and balance — together with that line's
trimmed tokens; if no line in the window qualifies, line 0 is used as the
header unconditionally and no error is raised. -/
theorem c1_header_locator_characterization (lines : List String) :
    (findHeaderRow lines).2 =
      (parseTabSeparatedLine (lines.getD (findHeaderRow lines).1 "")).map jsTrim ∧
    (((findHeaderRow lines).1 < min lines.length 50 ∧
        qualifiesSpec (lines.getD (findHeaderRow lines).1 "") ∧
        ∀ j < (findHeaderRow lines).1, ¬qualifiesSpec (lines.getD j "")) ∨
      ((findHeaderRow lines).1 = 0 ∧
        ∀ j < min lines.length 50, ¬qualifiesSpec (lines.getD j ""))) := by
  rcases hf : (List.range (min lines.length 50)).find?
      (fun i => lineQualifies (lines.getD i "")) with _ | i
  · have hr : findHeaderRow lines = (0, (parseTabSeparatedLine (lines.getD 0 "")).map jsTrim) := by
      unfold findHeaderRow
      rw [hf]
    rw [hr]
    refine ⟨rfl, Or.inr ⟨rfl, fun j hj hq => ?_⟩⟩
    have hfalse : lineQualifies (lines.getD j "") = false := find_range_none hf j hj
    rw [← lineQualifies_iff] at hq
    rw [hq] at hfalse
    exact Bool.noConfusion hfalse
  · have hr : findHeaderRow lines = (i, (parseTabSeparatedLine (lines.getD i "")).map jsTrim) := by
      unfold findHeaderRow
      rw [hf]
    rw [hr]
    obtain ⟨h1, h2, h3⟩ := find_range_some hf
    have h2x : lineQualifies (lines.getD i "") = true := h2
    refine ⟨rfl, Or.inl ⟨h1, lineQualifies_iff.mp h2x, fun j hj hq => ?_⟩⟩
    have hj2 : j < i := hj
    have hfalse : lineQualifies (lines.getD j "") = false := h3 j hj2
    rw [← lineQualifies_iff] at hq
    rw [hq] at hfalse
    exact Bool.noConfusion hfalse

/-- Witness for C1 (amended): the characterization applied to a concrete
two-line document whose second line is the header. -/
theorem c1_header_locator_characterization_witness :
    (findHeaderRow ["meta", "Date\tDebit\tParticulars"]).2 =
      (parseTabSeparatedLine (["meta", "Date\tDebit\tParticulars"].getD
        (findHeaderRow ["meta", "Date\tDebit\tParticulars"]).1 "")).map jsTrim ∧
    (((findHeaderRow ["meta", "Date\tDebit\tParticulars"]).1 <
        min (["meta", "Date\tDebit\tParticulars"] : List String).length 50 ∧
        qualifiesSpec (["meta", "Date\tDebit\tParticulars"].getD
          (findHeaderRow ["meta", "Date\tDebit\tParticulars"]).1 "") ∧
        ∀ j < (findHeaderRow ["meta", "Date\tDebit\tParticulars"]).1,
          ¬qualifiesSpec (["meta", "Date\tDebit\tParticulars"].getD j "")) ∨
      ((findHeaderRow ["meta", "Date\tDebit\tParticulars"]).1 = 0 ∧
        ∀ j < min (["meta", "Date\tDebit\tParticulars"] : List String).length 50,
          ¬qualifiesSpec (["meta", "Date\tDebit\tParticulars"].getD j ""))) :=
  c1_header_locator_characterization ["meta", "Date\tDebit\tParticulars"]

/-! ## Claim C6 -/

lemma litCI_mem : ∀ {p l r : List Char}, litCI p l = some r → ∀ c ∈ r, c ∈ l := by
  intro p
  induction p with
  | nil =>
    intro l r h c hc
    cases h
    exact hc
  | cons q ps ih =>
    intro l r h c hc
    cases l with
    | nil => cases h
    | cons x xs =>
      rw [show litCI (q :: ps) (x :: xs) =
        (if x.toLower == q.toLower then litCI ps xs else none) from rfl] at h
      by_cases hx : (x.toLower == q.toLower) = true
      · rw [if_pos hx] at h
        exact List.mem_cons_of_mem x (ih h c hc)
      · rw [if_neg hx] at h
        cases h

lemma takeLetters1_some : ∀ {l m : List Char}, takeLetters1 l = some m →
    m = l.dropWhile Char.isAlpha := by
  intro l m h
  unfold takeLetters1 at h
  split at h
  · cases h
  · cases h
    rfl

lemma tailDigitsSlash_slash : ∀ {l r : List Char}, tailDigitsSlash l = some r → '/' ∈ l := by
  intro l r h
  unfold tailDigitsSlash at h
  split at h
  · cases h
  · split at h
    · next heq =>
      exact mem_of_dropWhile (heq ▸ List.mem_cons_self '/' _)
    · cases h

lemma noiseA_noSlash {pre : String} {l : List Char} (h : '/' ∉ l) : noiseA pre l = none := by
  rcases hA : noiseA pre l with _ | r
  · rfl
  · exfalso
    unfold noiseA at hA
    split at hA
    · next r1 hL =>
      split at hA
      · next r2 heq =>
        have hm : '/' :: r2 = r1.dropWhile Char.isAlpha := takeLetters1_some heq
        have h1 : '/' ∈ r1.dropWhile Char.isAlpha := hm ▸ List.mem_cons_self '/' r2
        exact h (litCI_mem hL '/' (mem_of_dropWhile h1))
      · cases hA
    · cases hA

lemma noiseB_noSlash {pre : String} {l : List Char} (h : '/' ∉ l) : noiseB pre l = none := by
  rcases hB : noiseB pre l with _ | r
  · rfl
  · exfalso
    unfold noiseB at hB
    split at hB
    · next r1 hL =>
      exact h (litCI_mem hL '/' (tailDigitsSlash_slash hB))
    · cases hB

lemma stripAllF_noSlash {p : List Char → Option (List Char)}
    (hp : ∀ m, '/' ∉ m → p m = none) :
    ∀ (fuel : Nat) (l : List Char), '/' ∉ l → stripAllF fuel p l = l := by
  intro fuel
  induction fuel with
  | zero => intro l _; rfl
  | succ n ih =>
    intro l hl
    cases l with
    | nil => rfl
    | cons c rest =>
      rw [show stripAllF (n + 1) p (c :: rest) =
        (match p (c :: rest) with
          | some rem => stripAllF n p rem
          | none => c :: stripAllF n p rest) from rfl]
      rw [hp (c :: rest) hl]
      rw [ih rest (fun hm => hl (List.mem_cons_of_mem c hm))]

lemma stripAll_noSlash {p : List Char → Option (List Char)}
    (hp : ∀ m, '/' ∉ m → p m = none) {l : List Char} (hl : '/' ∉ l) :
    stripAll p l = l :=
  stripAllF_noSlash hp l.length l hl

lemma mem_collapseWsAux {c : Char} :
    ∀ {b : Bool} {l : List Char}, c ∈ collapseWsAux b l →
      c = ' ' ∨ (c ∈ l ∧ isJsWs c = false) := by
  intro b l
  induction l generalizing b with
  | nil => intro h; cases h
  | cons a as ih =>
    intro h
    unfold collapseWsAux at h
    by_cases ha : isJsWs a = true
    · rw [if_pos ha] at h
      by_cases hb : b = true
      · rw [if_pos hb] at h
        rcases ih h with h2 | ⟨h2, h3⟩
        · exact Or.inl h2
        · exact Or.inr ⟨List.mem_cons_of_mem a h2, h3⟩
      · rw [if_neg hb] at h
        rcases List.mem_cons.mp h with rfl | h2
        · exact Or.inl rfl
        · rcases ih h2 with h3 | ⟨h3, h4⟩
          · exact Or.inl h3
          · exact Or.inr ⟨List.mem_cons_of_mem a h3, h4⟩
    · rw [if_neg ha] at h
      rcases List.mem_cons.mp h with rfl | h2
      · exact Or.inr ⟨List.mem_cons_self c as, by simpa using ha⟩
      · rcases ih h2 with h3 | ⟨h3, h4⟩
        · exact Or.inl h3
        · exact Or.inr ⟨List.mem_cons_of_mem a h3, h4⟩

lemma wsOnlySpace_collapse (b : Bool) (l : List Char) :
    wsOnlySpace (collapseWsAux b l) = true := by
  rw [wsOnlySpace, List.all_eq_true]
  intro c hc
  rcases mem_collapseWsAux hc with rfl | ⟨-, hw⟩
  · rfl
  · simp [hw]

lemma noSlash_collapse {b : Bool} {l : List Char} (h : '/' ∉ l) :
    '/' ∉ collapseWsAux b l := by
  intro hc
  rcases mem_collapseWsAux hc with h2 | ⟨h2, -⟩
  · cases h2
  · exact h h2

lemma headNonWs_headIsSpace {l : List Char} (h : headNonWs l = true) :
    headIsSpace l = false := by
  cases l with
  | nil => rfl
  | cons c cs =>
    have hc : isJsWs c = false := by simpa [headNonWs] using h
    have : (c == ' ') = false := by
      cases hcc : (c == ' ') with
      | false => rfl
      | true =>
        rw [show c = ' ' from by simpa using hcc] at hc
        cases hc
    simpa [headIsSpace] using this

lemma wsOnly_head {l : List Char} (hw : wsOnlySpace l = true) (hs : headIsSpace l = false) :
    headNonWs l = true := by
  cases l with
  | nil => rfl
  | cons c cs =>
    have hc : (!isJsWs c || c == ' ') = true := by
      rw [wsOnlySpace, List.all_eq_true] at hw
      exact hw c (List.mem_cons_self c cs)
    have hs2 : (c == ' ') = false := by simpa [headIsSpace] using hs
    rw [hs2, Bool.or_false] at hc
    simpa [headNonWs] using hc

lemma noDouble_collapse : ∀ (l : List Char) (b : Bool),
    noDouble (collapseWsAux b l) = true ∧
      (b = true → headNonWs (collapseWsAux b l) = true) := by
  intro l
  induction l with
  | nil => intro b; exact ⟨rfl, fun _ => rfl⟩
  | cons c cs ih =>
    intro b
    unfold collapseWsAux
    by_cases hc : isJsWs c = true
    · rw [if_pos hc]
      by_cases hb : b = true
      · rw [if_pos hb]
        exact ⟨(ih true).1, fun _ => (ih true).2 rfl⟩
      · rw [if_neg hb]
        have hhead : headNonWs (collapseWsAux true cs) = true := (ih true).2 rfl
        constructor
        · rw [noDouble]
          rw [headNonWs_headIsSpace hhead]
          simp [(ih true).1]
        · intro hb2
          exact absurd hb2 hb
    · rw [if_neg hc]
      have hsp : (c == ' ') = false := by
        cases hcc : (c == ' ') with
        | false => rfl
        | true =>
          rw [show c = ' ' from by simpa using hcc] at hc
          exact absurd rfl hc
      constructor
      · rw [noDouble, hsp]
        simp [(ih false).1]
      · intro _
        have hc2 : isJsWs c = false := by
          cases hx : isJsWs c with
          | false => rfl
          | true => exact absurd hx hc
        simp [headNonWs, hc2]

lemma noDouble_tail {c : Char} {l : List Char} (h : noDouble (c :: l) = true) :
    noDouble l = true := by
  rw [noDouble, Bool.and_eq_true] at h
  exact h.2

lemma noDouble_dropWhile {p : Char → Bool} :
    ∀ {l : List Char}, noDouble l = true → noDouble (l.dropWhile p) = true := by
  intro l
  induction l with
  | nil => intro h; exact h
  | cons c cs ih =>
    intro h
    rw [List.dropWhile_cons]
    by_cases hp : p c = true
    · rw [if_pos hp]
      exact ih (noDouble_tail h)
    · rw [if_neg hp]
      exact h

lemma headIsSpace_head? {l : List Char} :
    headIsSpace l = (match l.head? with | some c => c == ' ' | none => false) := by
  cases l <;> rfl

lemma lastIsSpace_reverse {l : List Char} : lastIsSpace l.reverse = headIsSpace l := by
  rw [lastIsSpace, List.getLast?_reverse, headIsSpace_head?]

lemma lastIsSpace_cons_cons {a b : Char} {l : List Char} :
    lastIsSpace (a :: b :: l) = lastIsSpace (b :: l) := by
  rw [lastIsSpace, lastIsSpace, List.getLast?_cons_cons]

lemma noDouble_append_single : ∀ (l : List Char) (c : Char),
    noDouble (l ++ [c]) = (noDouble l && !(lastIsSpace l && c == ' ')) := by
  intro l
  induction l with
  | nil =>
    intro c
    simp [noDouble, headIsSpace, lastIsSpace]
  | cons a as ih =>
    intro c
    cases as with
    | nil =>
      cases ha : (a == ' ') <;> cases hcs : (c == ' ') <;>
        simp [noDouble, headIsSpace, lastIsSpace, ha, hcs]
    | cons b bs =>
      rw [List.cons_append, noDouble, ih c]
      rw [show noDouble (a :: b :: bs) = (!(a == ' ' && headIsSpace (b :: bs)) &&
        noDouble (b :: bs)) from rfl]
      rw [lastIsSpace_cons_cons]
      rw [show headIsSpace ((b :: bs) ++ [c]) = headIsSpace (b :: bs) from rfl]
      cases (a == ' ' && headIsSpace (b :: bs)) <;> simp [Bool.and_assoc]

lemma noDouble_reverse : ∀ {l : List Char}, noDouble l.reverse = noDouble l := by
  intro l
  induction l with
  | nil => rfl
  | cons c cs ih =>
    rw [List.reverse_cons, noDouble_append_single, ih, lastIsSpace_reverse]
    rw [show noDouble (c :: cs) = (!(c == ' ' && headIsSpace cs) && noDouble cs) from rfl]
    cases (noDouble cs) <;> cases (c == ' ') <;> cases (headIsSpace cs) <;> rfl

lemma noDouble_jsTrimL {l : List Char} (h : noDouble l = true) :
    noDouble (jsTrimL l) = true := by
  rw [jsTrimL, noDouble_reverse]
  exact noDouble_dropWhile (by rw [noDouble_reverse]; exact noDouble_dropWhile h)

lemma wsOnlySpace_jsTrimL {l : List Char} (h : wsOnlySpace l = true) :
    wsOnlySpace (jsTrimL l) = true := by
  rw [wsOnlySpace, List.all_eq_true] at h ⊢
  intro c hc
  exact h c (mem_of_jsTrimL hc)

lemma headNonWs_eq_head? {l : List Char} :
    headNonWs l = (match l.head? with | some c => !isJsWs c | none => true) := by
  cases l <;> rfl

lemma head?_dropWhile_not {p : Char → Bool} :
    ∀ {l : List Char} {c : Char}, (l.dropWhile p).head? = some c → p c = false := by
  intro l
  induction l with
  | nil => intro c h; cases h
  | cons a as ih =>
    intro c h
    rw [List.dropWhile_cons] at h
    by_cases hp : p a = true
    · rw [if_pos hp] at h
      exact ih h
    · rw [if_neg hp, List.head?_cons] at h
      cases h
      cases hx : p a with
      | false => rfl
      | true => exact absurd hx hp

lemma headNonWs_dropWhile (l : List Char) : headNonWs (l.dropWhile isJsWs) = true := by
  rw [headNonWs_eq_head?]
  rcases hh : (l.dropWhile isJsWs).head? with _ | c
  · rfl
  · simp [head?_dropWhile_not hh]

lemma getLast?_dropWhile_ne {p : Char → Bool} :
    ∀ {l : List Char}, l.dropWhile p ≠ [] → (l.dropWhile p).getLast? = l.getLast? := by
  intro l
  induction l with
  | nil => intro h; exact absurd rfl h
  | cons a as ih =>
    intro h
    rw [List.dropWhile_cons] at h ⊢
    by_cases hp : p a = true
    · rw [if_pos hp] at h ⊢
      have has : as ≠ [] := by
        intro he
        rw [he] at h
        exact h rfl
      rcases hcons : as with _ | ⟨b, bs⟩
      · exact absurd hcons has
      · rw [← hcons, ih h, hcons, List.getLast?_cons_cons]
    · rw [if_neg hp]

lemma headNonWs_jsTrimL (l : List Char) : headNonWs (jsTrimL l) = true := by
  rw [jsTrimL, headNonWs_eq_head?]
  rcases hh : ((l.dropWhile isJsWs).reverse.dropWhile isJsWs).reverse.head? with _ | c
  · rfl
  · rw [List.head?_reverse] at hh
    have hne : (l.dropWhile isJsWs).reverse.dropWhile isJsWs ≠ [] := by
      intro he
      rw [he] at hh
      cases hh
    rw [getLast?_dropWhile_ne hne, List.getLast?_reverse] at hh
    simp [head?_dropWhile_not hh]

lemma headNonWs_rev_jsTrimL (l : List Char) : headNonWs (jsTrimL l).reverse = true := by
  rw [jsTrimL, List.reverse_reverse]
  exact headNonWs_dropWhile _

lemma dropWhile_of_headNonWs {l : List Char} (h : headNonWs l = true) :
    l.dropWhile isJsWs = l := by
  cases l with
  | nil => rfl
  | cons c cs =>
    have hc : isJsWs c = false := by simpa [headNonWs] using h
    rw [List.dropWhile_cons, hc]
    simp

lemma jsTrimL_of_norm {l : List Char} (h1 : headNonWs l = true)
    (h2 : headNonWs l.reverse = true) : jsTrimL l = l := by
  rw [jsTrimL, dropWhile_of_headNonWs h1, dropWhile_of_headNonWs h2, List.reverse_reverse]

lemma collapse_id_aux : ∀ (l : List Char), wsOnlySpace l = true → noDouble l = true →
    (collapseWsAux false l = l ∧ (headNonWs l = true → collapseWsAux true l = l)) := by
  intro l
  induction l with
  | nil => intro _ _; exact ⟨rfl, fun _ => rfl⟩
  | cons c cs ih =>
    intro hws hnd
    have hws2 : wsOnlySpace cs = true := by
      rw [wsOnlySpace, List.all_eq_true] at hws ⊢
      exact fun x hx => hws x (List.mem_cons_of_mem c hx)
    have hnd2 : noDouble cs = true := noDouble_tail hnd
    by_cases hc : isJsWs c = true
    · have hcsp : c = ' ' := by
        rw [wsOnlySpace, List.all_eq_true] at hws
        have := hws c (List.mem_cons_self c cs)
        rw [hc] at this
        simpa using this
      subst hcsp
      have hhead : headIsSpace cs = false := by
        rw [noDouble, Bool.and_eq_true] at hnd
        have h1 := hnd.1
        simpa using h1
      have hcs_head : headNonWs cs = true := wsOnly_head hws2 hhead
      constructor
      · rw [show collapseWsAux false (' ' :: cs) =
          ' ' :: collapseWsAux true cs from by simp [collapseWsAux, isJsWs]]
        rw [(ih hws2 hnd2).2 hcs_head]
      · intro hh
        simp [headNonWs, isJsWs] at hh
    · have hc2 : isJsWs c = false := by
        cases hx : isJsWs c with
        | false => rfl
        | true => exact absurd hx hc
      constructor
      · rw [show collapseWsAux false (c :: cs) = c :: collapseWsAux false cs from by
          simp [collapseWsAux, hc2]]
        rw [(ih hws2 hnd2).1]
      · intro _
        rw [show collapseWsAux true (c :: cs) = c :: collapseWsAux false cs from by
          simp [collapseWsAux, hc2]]
        rw [(ih hws2 hnd2).1]

lemma cleanDescriptionL_noSlash_eq {l : List Char} (h : '/' ∉ l) (hne : l ≠ []) :
    cleanDescriptionL l = jsTrimL (collapseWsAux false l) := by
  simp only [cleanDescriptionL]
  rw [if_neg hne]
  rw [stripAll_noSlash (fun m hm => noiseA_noSlash hm) h,
    stripAll_noSlash (fun m hm => noiseA_noSlash hm) h,
    stripAll_noSlash (fun m hm => noiseB_noSlash hm) h,
    stripAll_noSlash (fun m hm => noiseB_noSlash hm) h,
    stripAll_noSlash (fun m hm => noiseB_noSlash hm) h,
    stripAll_noSlash (fun m hm => noiseB_noSlash hm) h]

lemma cleanDescriptionL_idem_noSlash {l : List Char} (hl : '/' ∉ l) :
    cleanDescriptionL (cleanDescriptionL l) = cleanDescriptionL l := by
  by_cases hne : l = []
  · subst hne
    rfl
  · rw [cleanDescriptionL_noSlash_eq hl hne]
    have hys : '/' ∉ jsTrimL (collapseWsAux false l) :=
      fun hm => noSlash_collapse hl (mem_of_jsTrimL hm)
    by_cases hyne : jsTrimL (collapseWsAux false l) = []
    · rw [hyne]
      rfl
    · rw [cleanDescriptionL_noSlash_eq hys hyne]
      have hws : wsOnlySpace (jsTrimL (collapseWsAux false l)) = true :=
        wsOnlySpace_jsTrimL (wsOnlySpace_collapse false l)
      have hnd : noDouble (jsTrimL (collapseWsAux false l)) = true :=
        noDouble_jsTrimL (noDouble_collapse l false).1
      rw [(collapse_id_aux _ hws hnd).1]
      exact jsTrimL_of_norm (headNonWs_jsTrimL _) (headNonWs_rev_jsTrimL _)

/-- Counterexample for C6 as stated: on `"UPI/DR//CR/9/123/"` the `/CR/9/`
removal splices the surrounding text into the new noise match
`UPI/DR/123/`, which a second application removes — so `cleanDescription`
is not idempotent. -/
theorem c6_counterexample :
    cleanDescription (cleanDescription "UPI/DR//CR/9/123/") ≠
      cleanDescription "UPI/DR//CR/9/123/" := by
  decide

/-- Claim C6 (amended): `cleanDescription` is idempotent on every input
containing no `/` character (where the noise removals cannot fire and only
whitespace collapsing and trimming act); on general inputs idempotence
fails because a removal can splice together a fresh noise match. -/
theorem c6_cleanDescription_idempotent_without_slash (x : String) (h : '/' ∉ x.data) :
    cleanDescription (cleanDescription x) = cleanDescription x := by
  show String.mk (cleanDescriptionL (cleanDescriptionL x.data)) = String.mk (cleanDescriptionL x.data)
  exact congrArg String.mk (cleanDescriptionL_idem_noSlash h)

/-- Witness for C6 (amended): a slash-free description with interior
whitespace runs is a fixed point of a second cleaning. -/
theorem c6_cleanDescription_idempotent_without_slash_witness :
    cleanDescription (cleanDescription "NEFT  payment   to  vendor") =
      cleanDescription "NEFT  payment   to  vendor" :=
  c6_cleanDescription_idempotent_without_slash "NEFT  payment   to  vendor" (by decide)

end Tsv
